import Mathlib

/-!
Shallow embedding of the voxel-physics core of the repository
(class `Physics` in the physics module, class `World` in the world module),
with floating-point numbers idealized as real numbers.
-/

namespace VoxelPhysics

/-- Real 3-vector, modelling `THREE.Vector3` (and the plain `Point3D`-shaped
records holding real coordinates, such as contact points). -/
@[ext]
structure Vec3 where
  x : ℝ
  y : ℝ
  z : ℝ

/-- Componentwise sum, modelling `THREE.Vector3.add`. -/
def Vec3.add (a b : Vec3) : Vec3 := ⟨a.x + b.x, a.y + b.y, a.z + b.z⟩

/-- Scalar multiple, modelling `THREE.Vector3.multiplyScalar`. -/
def Vec3.multiplyScalar (v : Vec3) (s : ℝ) : Vec3 := ⟨v.x * s, v.y * s, v.z * s⟩

/-- Dot product, modelling `THREE.Vector3.dot`. -/
def Vec3.dot (a b : Vec3) : ℝ := a.x * b.x + a.y * b.y + a.z * b.z

/-- Componentwise negation, modelling `THREE.Vector3.negate`. -/
def Vec3.negate (v : Vec3) : Vec3 := ⟨-v.x, -v.y, -v.z⟩

/-- Euclidean norm, modelling `THREE.Vector3.length`. -/
noncomputable def Vec3.length (v : Vec3) : ℝ :=
  Real.sqrt (v.x * v.x + v.y * v.y + v.z * v.z)

/-- Division by a scalar; `THREE.Vector3.divideScalar` multiplies by `1 / s`. -/
noncomputable def Vec3.divideScalar (v : Vec3) (s : ℝ) : Vec3 :=
  v.multiplyScalar (1 / s)

/-- Normalization, modelling `THREE.Vector3.normalize`, which divides by
`this.length() || 1`: a zero-length vector is divided by `1` and therefore
stays the zero vector (no NaN is produced). -/
noncomputable def Vec3.normalize (v : Vec3) : Vec3 :=
  v.divideScalar (if v.length = 0 then 1 else v.length)

/-- Integer voxel cell coordinate, modelling the `Point3D` records pushed by
`broadPhase` (their fields are always the integer loop indices). -/
@[ext]
structure Point3D where
  x : ℤ
  y : ℤ
  z : ℤ
deriving DecidableEq

/-- Per-cell block data from the world module (`BlockData`). -/
structure BlockData where
  id : ℤ
  instanceId : ℤ

/-- The reserved empty block identifier, `blocks.empty.id = 0`. -/
def blocksEmptyId : ℤ := 0

/-- Voxel grid, modelling the `World` class of the world module: a
`width × height × width` array of `BlockData`.  The `data` field is the
total function standing for the in-bounds array contents. -/
structure World where
  width : ℤ
  height : ℤ
  data : ℤ → ℤ → ℤ → BlockData

/-- Bounds predicate, modelling `World.inBounds`. -/
def World.inBounds (w : World) (x y z : ℤ) : Prop :=
  0 ≤ x ∧ x < w.width ∧ 0 ≤ y ∧ y < w.height ∧ 0 ≤ z ∧ z < w.width

instance (w : World) (x y z : ℤ) : Decidable (w.inBounds x y z) := by
  unfold World.inBounds
  infer_instance

/-- Block lookup, modelling `World.getBlock`: returns the block when the
coordinates are in bounds and `null` (here `none`) otherwise — never an
error. -/
def World.getBlock (w : World) (x y z : ℤ) : Option BlockData :=
  if w.inBounds x y z then some (w.data x y z) else none

/-- Actor state.  `position`, `velocity` and `input` come from the `Player`
class; `radius`, `height`, `onGround` and the pointer-lock flag are the
later-variant `Player` members referenced by the physics module but absent
from src/; they are modelled from the spec (§3 Actor: shape parameters
`radius > 0`, `height > 0`, derived `grounded` flag). -/
@[ext]
structure Player where
  position : Vec3
  velocity : Vec3
  input : Vec3
  radius : ℝ
  height : ℝ
  onGround : Bool
  isLocked : Bool

/-- Modelled from the spec: the later-variant `Player.applyInputs` (absent
from src/; the src/ copy of `player.ts` is the superseded variant).  Per
§4.1/§2, when pointer-lock is active the externally-set intent overwrites the
horizontal velocity and the position is advanced by the velocity for this
sub-step; velocity is kept in world space (§3), with the camera yaw fixed to
the identity, so `moveRight` advances `+x` and `moveForward` advances `-z`. -/
def Player.applyInputs (p : Player) (dt : ℝ) : Player :=
  if p.isLocked then
    let v : Vec3 := ⟨p.input.x, p.velocity.y, p.input.z⟩
    { p with
      velocity := v
      position := ⟨p.position.x + v.x * dt, p.position.y + v.y * dt,
                   p.position.z - v.z * dt⟩ }
  else p

/-- Modelled from the spec: §3 stores the actor velocity in world space, so
the later-variant `Player.worldVelocity` getter returns it unchanged. -/
def Player.worldVelocity (p : Player) : Vec3 := p.velocity

/-- Modelled from the spec: the later-variant `Player.applyWorldDeltaVelocity`
adds a world-space velocity delta to the (world-space, §3) velocity. -/
def Player.applyWorldDeltaVelocity (p : Player) (dv : Vec3) : Player :=
  { p with velocity := p.velocity.add dv }

/-- Collision record emitted by the narrow phase (`BlockCollision`). -/
structure BlockCollision where
  block : Point3D
  contactPoint : Vec3
  normal : Vec3
  overlap : ℝ

/-- Physics constant: `gravity = 32`. -/
def gravity : ℝ := 32

/-- Physics constant: `simulationRate = 250`. -/
def simulationRate : ℝ := 250

/-- Physics constant: `timestep = 1 / simulationRate`. -/
noncomputable def timestep : ℝ := 1 / simulationRate

/-- Inclusive integer range `[lo, hi]` enumerated in increasing order,
modelling the `for (let i = lo; i <= hi; i++)` loops of `broadPhase`. -/
def intRange (lo hi : ℤ) : List ℤ :=
  (List.range (hi + 1 - lo).toNat).map fun i : ℕ => lo + (i : ℤ)

/-- Broad phase, modelling `Physics.broadPhase`: enumerate every integer cell
in the floored/ceiled bounding extents and keep those holding a non-empty
block (out-of-bounds lookups return `none` and are skipped). -/
noncomputable def broadPhase (player : Player) (world : World) : List Point3D :=
  let xmin := ⌊player.position.x - player.radius⌋
  let xmax := ⌈player.position.x + player.radius⌉
  let ymin := ⌊player.position.y - player.height⌋
  let ymax := ⌈player.position.y⌉
  let zmin := ⌊player.position.z - player.radius⌋
  let zmax := ⌈player.position.z + player.radius⌉
  (intRange xmin xmax).flatMap fun x =>
    (intRange ymin ymax).flatMap fun y =>
      (intRange zmin zmax).filterMap fun z =>
        match world.getBlock x y z with
        | some block => if block.id ≠ blocksEmptyId then some ⟨x, y, z⟩ else none
        | none => none

/-- Closest point on the candidate cell's unit cube (center convention) to
the axis of the player's bounding cylinder, as computed at the top of the
`narrowPhase` loop body. -/
noncomputable def closestPoint (player : Player) (block : Point3D) : Vec3 :=
  ⟨max ((block.x : ℝ) - 0.5) (min player.position.x ((block.x : ℝ) + 0.5)),
   max ((block.y : ℝ) - 0.5)
     (min (player.position.y - player.height / 2) ((block.y : ℝ) + 0.5)),
   max ((block.z : ℝ) - 0.5) (min player.position.z ((block.z : ℝ) + 0.5))⟩

/-- Containment test, modelling `Physics.pointInPlayerBoundingCylinder`. -/
def pointInPlayerBoundingCylinder (p : Vec3) (player : Player) : Prop :=
  let dx := p.x - player.position.x
  let dy := p.y - (player.position.y - player.height / 2)
  let dz := p.z - player.position.z
  |dy| < player.height / 2 ∧ dx * dx + dz * dz < player.radius * player.radius

noncomputable instance (p : Vec3) (player : Player) :
    Decidable (pointInPlayerBoundingCylinder p player) := by
  unfold pointInPlayerBoundingCylinder
  infer_instance

/-- Loop body of `Physics.narrowPhase` for one candidate cell, threading the
accumulated collision list and the player (whose `onGround` flag the vertical
branch sets). -/
noncomputable def narrowStep (acc : List BlockCollision × Player)
    (block : Point3D) : List BlockCollision × Player :=
  let player := acc.2
  let cp := closestPoint player block
  let dx := cp.x - player.position.x
  let dy := cp.y - (player.position.y - player.height / 2)
  let dz := cp.z - player.position.z
  if pointInPlayerBoundingCylinder cp player then
    let overlapY := player.height / 2 - |dy|
    let overlapXZ := player.radius - Real.sqrt (dx * dx + dz * dz)
    let sel : Vec3 × ℝ × Bool :=
      if overlapY < overlapXZ then
        (⟨0, -Real.sign dy, 0⟩, overlapY, true)
      else
        (Vec3.normalize ⟨-dx, 0, -dz⟩, overlapXZ, player.onGround)
    (acc.1 ++ [{ block := block, contactPoint := cp, normal := sel.1,
                 overlap := sel.2.1 }],
     { player with onGround := sel.2.2 })
  else acc

/-- Narrow phase, modelling `Physics.narrowPhase`: runs the loop body over
the candidates, returning the emitted collision records together with the
player whose `onGround` flag the loop may have set. -/
noncomputable def narrowPhase (candidates : List Point3D) (player : Player) :
    List BlockCollision × Player :=
  candidates.foldl narrowStep ([], player)

/-- Resolution of a single collision, modelling the body of the `for` loop in
`Physics.resolveCollisions`: translate the position by `normal * overlap`,
then subtract from the world velocity its component along the normal. -/
def resolveOne (player : Player) (collision : BlockCollision) : Player :=
  let deltaPosition := collision.normal.multiplyScalar collision.overlap
  let player1 := { player with position := player.position.add deltaPosition }
  let magnitude := player1.worldVelocity.dot collision.normal
  let velocityAdjustment := (collision.normal.multiplyScalar magnitude).negate
  player1.applyWorldDeltaVelocity velocityAdjustment

/-- Stable ascending sort by `overlap`, modelling the ECMAScript stable
`Array.prototype.sort` with the comparator
`a.overlap < b.overlap ? -1 : a.overlap > b.overlap ? 1 : 0`. -/
noncomputable def sortCollisions (collisions : List BlockCollision) :
    List BlockCollision :=
  collisions.mergeSort fun a b => decide (a.overlap ≤ b.overlap)

/-- Collision resolver, modelling `Physics.resolveCollisions`: sort ascending
by overlap, then resolve each collision in order. -/
noncomputable def resolveCollisions (collisions : List BlockCollision)
    (player : Player) : Player :=
  (sortCollisions collisions).foldl resolveOne player

/-- Detection pass, modelling `Physics.detectCollisions`: clear the grounded
flag, run broad and narrow phase, and resolve when any collision was found. -/
noncomputable def detectCollisions (player : Player) (world : World) : Player :=
  let p0 := { player with onGround := false }
  let candidates := broadPhase p0 world
  let np := narrowPhase candidates p0
  if 0 < np.1.length then resolveCollisions np.1 np.2 else np.2

/-- One fixed simulation step: the body of the `while` loop in
`Physics.update` (gravity, input application, detection/resolution). -/
noncomputable def physicsStep (world : World) (player : Player) : Player :=
  let p1 := { player with
    velocity := ⟨player.velocity.x, player.velocity.y - gravity * timestep,
                 player.velocity.z⟩ }
  let p2 := p1.applyInputs timestep
  detectCollisions p2 world

/-- Integrator state: the simulated player together with the time
accumulator of the `Physics` instance. -/
structure PhysState where
  player : Player
  accumulator : ℝ

/-- The `while (accumulator >= timestep)` loop of `Physics.update`. -/
noncomputable def updateLoop (world : World) (st : PhysState) : PhysState :=
  if h : timestep ≤ st.accumulator then
    updateLoop world ⟨physicsStep world st.player, st.accumulator - timestep⟩
  else st
termination_by (⌊st.accumulator / timestep⌋).toNat
decreasing_by
  have hts : (0 : ℝ) < timestep := by norm_num [timestep, simulationRate]
  have h1 : (1 : ℝ) ≤ st.accumulator / timestep := (one_le_div hts).mpr h
  have hfl : (1 : ℤ) ≤ ⌊st.accumulator / timestep⌋ := by
    exact_mod_cast Int.le_floor.mpr (by exact_mod_cast h1)
  have heq : ⌊(st.accumulator - timestep) / timestep⌋
      = ⌊st.accumulator / timestep⌋ - 1 := by
    rw [sub_div, div_self (ne_of_gt hts), Int.floor_sub_one]
  simp only [heq]
  omega

/-- Integrator entry point, modelling `Physics.update(dt, player, world)`:
add `dt` to the accumulator, then run whole fixed steps while it holds at
least one `timestep`.  The grid is read-only and is not part of the state. -/
noncomputable def update (dt : ℝ) (st : PhysState) (world : World) : PhysState :=
  updateLoop world ⟨st.player, st.accumulator + dt⟩

/-- Repeated integrator calls, modelling the render loop driving
`Physics.update` once per frame with each real-time delta. -/
noncomputable def runUpdates (deltas : List ℝ) (st : PhysState)
    (world : World) : PhysState :=
  deltas.foldl (fun s d => update d s world) st

/-- Per-cell result of the narrow-phase loop body: the collision record
emitted for one candidate cell, or `none` when the containment test fails.
Derived from the same formulas as `narrowStep`; it does not depend on the
player's `onGround` flag. -/
noncomputable def cellCollision (player : Player) (block : Point3D) :
    Option BlockCollision :=
  let cp := closestPoint player block
  let dx := cp.x - player.position.x
  let dy := cp.y - (player.position.y - player.height / 2)
  let dz := cp.z - player.position.z
  if pointInPlayerBoundingCylinder cp player then
    let overlapY := player.height / 2 - |dy|
    let overlapXZ := player.radius - Real.sqrt (dx * dx + dz * dz)
    some (if overlapY < overlapXZ then
      { block := block, contactPoint := cp, normal := ⟨0, -Real.sign dy, 0⟩,
        overlap := overlapY }
    else
      { block := block, contactPoint := cp,
        normal := Vec3.normalize ⟨-dx, 0, -dz⟩, overlap := overlapXZ })
  else none

/-- Predicate for a candidate cell that is emitted with the vertical axis
selected (`overlapY < overlapXZ`), i.e. the cells for which the narrow-phase
loop sets the grounded flag. -/
def cellVertical (player : Player) (block : Point3D) : Prop :=
  let cp := closestPoint player block
  let dx := cp.x - player.position.x
  let dy := cp.y - (player.position.y - player.height / 2)
  let dz := cp.z - player.position.z
  pointInPlayerBoundingCylinder cp player ∧
    player.height / 2 - |dy| < player.radius - Real.sqrt (dx * dx + dz * dz)

noncomputable instance (player : Player) (block : Point3D) :
    Decidable (cellVertical player block) := by
  unfold cellVertical
  infer_instance

/-- Grid for the spec's drop scenario: a single occupied voxel at cell
`(0, 1, 0)` in an otherwise empty (and elsewhere out-of-bounds) grid. -/
def scenarioWorld : World :=
  ⟨1, 2, fun x y z => if x = 0 ∧ y = 1 ∧ z = 0 then ⟨1, -1⟩ else ⟨0, -1⟩⟩

/-- Actor of the spec's drop scenario: `radius = 0.4`, `height = 1.8`,
horizontally at `(0.5, ·, 0.5)`, vertical velocity `vy`, no input,
pointer-lock active. -/
noncomputable def scenarioPlayer (y vy : ℝ) (og : Bool) : Player :=
  ⟨⟨0.5, y, 0.5⟩, ⟨0, vy, 0⟩, ⟨0, 0, 0⟩, 0.4, 1.8, og, true⟩

/-- Candidate cell used for the degenerate-normal evaluations. -/
def degBlock : Point3D := ⟨0, 0, 0⟩

/-- Actor whose bounding-cylinder axis passes exactly through the center of
`degBlock` (`dx = dz = 0`) while the horizontal overlap dominates. -/
noncomputable def degPlayer : Player :=
  ⟨⟨0, 2, 0⟩, ⟨0, 0, 0⟩, ⟨0, 0, 0⟩, 1, 4, false, false⟩

/-! Integrator lemmas. -/

lemma timestep_pos : (0 : ℝ) < timestep := by
  norm_num [timestep, simulationRate]

lemma fract_lower (x : ℝ) : 0 ≤ x - timestep * ⌊x / timestep⌋ := by
  have h1 : (⌊x / timestep⌋ : ℝ) ≤ x / timestep := Int.floor_le _
  have h2 : timestep * (⌊x / timestep⌋ : ℝ) ≤ timestep * (x / timestep) :=
    mul_le_mul_of_nonneg_left h1 timestep_pos.le
  have h3 : timestep * (x / timestep) = x := by
    rw [mul_comm]
    exact div_mul_cancel₀ x (ne_of_gt timestep_pos)
  linarith

lemma fract_upper (x : ℝ) : x - timestep * ⌊x / timestep⌋ < timestep := by
  have h1 : x / timestep < (⌊x / timestep⌋ : ℝ) + 1 := Int.lt_floor_add_one _
  have h2 : timestep * (x / timestep) < timestep * ((⌊x / timestep⌋ : ℝ) + 1) :=
    mul_lt_mul_of_pos_left h1 timestep_pos
  have h3 : timestep * (x / timestep) = x := by
    rw [mul_comm]
    exact div_mul_cancel₀ x (ne_of_gt timestep_pos)
  nlinarith

lemma updateLoop_eq (world : World) (st : PhysState)
    (h0 : 0 ≤ st.accumulator) :
    updateLoop world st
      = ⟨(physicsStep world)^[(⌊st.accumulator / timestep⌋).toNat] st.player,
         st.accumulator - timestep * ⌊st.accumulator / timestep⌋⟩ := by
  generalize hn : (⌊st.accumulator / timestep⌋).toNat = n
  induction n generalizing st with
  | zero =>
    have hnn : 0 ≤ ⌊st.accumulator / timestep⌋ :=
      Int.floor_nonneg.mpr (div_nonneg h0 timestep_pos.le)
    have hfl0 : ⌊st.accumulator / timestep⌋ = 0 := by omega
    have hlt : st.accumulator < timestep := by
      have h1 : st.accumulator / timestep < 1 := by
        have := (Int.floor_eq_zero_iff.mp hfl0).2
        simpa using this
      have := (div_lt_one timestep_pos).mp h1
      linarith
    rw [updateLoop, dif_neg (not_le.mpr hlt)]
    simp [hfl0]
  | succ n ih =>
    have hnn : 0 ≤ ⌊st.accumulator / timestep⌋ :=
      Int.floor_nonneg.mpr (div_nonneg h0 timestep_pos.le)
    have hfl1 : 1 ≤ ⌊st.accumulator / timestep⌋ := by omega
    have hge : timestep ≤ st.accumulator := by
      have h1 : (1 : ℝ) ≤ st.accumulator / timestep := by
        have : ((1 : ℤ) : ℝ) ≤ (⌊st.accumulator / timestep⌋ : ℝ) := by
          exact_mod_cast hfl1
        calc (1 : ℝ) ≤ (⌊st.accumulator / timestep⌋ : ℝ) := by exact_mod_cast this
          _ ≤ st.accumulator / timestep := Int.floor_le _
      exact (one_le_div timestep_pos).mp h1
    have heq : ⌊(st.accumulator - timestep) / timestep⌋
        = ⌊st.accumulator / timestep⌋ - 1 := by
      rw [sub_div, div_self (ne_of_gt timestep_pos), Int.floor_sub_one]
    rw [updateLoop, dif_pos hge]
    rw [ih ⟨physicsStep world st.player, st.accumulator - timestep⟩
      (by simp only; linarith) (by simp only [heq]; omega)]
    simp only [PhysState.mk.injEq]
    constructor
    · rw [← Function.iterate_succ_apply, ← hn]
      congr 1
      omega
    · rw [heq]
      push_cast
      ring

lemma update_eq_iterate (dt : ℝ) (st : PhysState) (world : World)
    (h0 : 0 ≤ st.accumulator + dt) :
    update dt st world
      = ⟨(physicsStep world)^[(⌊(st.accumulator + dt) / timestep⌋).toNat]
           st.player,
         st.accumulator + dt - timestep * ⌊(st.accumulator + dt) / timestep⌋⟩ :=
  updateLoop_eq world ⟨st.player, st.accumulator + dt⟩ h0

lemma runUpdates_eq (world : World) (l : List ℝ) :
    ∀ st : PhysState, 0 ≤ st.accumulator → st.accumulator < timestep →
      (∀ d ∈ l, 0 ≤ d) →
      runUpdates l st world
        = ⟨(physicsStep world)^[(⌊(st.accumulator + l.sum) / timestep⌋).toNat]
             st.player,
           st.accumulator + l.sum
             - timestep * ⌊(st.accumulator + l.sum) / timestep⌋⟩ := by
  induction l with
  | nil =>
    intro st h0 h1 _
    have hfl0 : ⌊st.accumulator / timestep⌋ = 0 := by
      rw [Int.floor_eq_zero_iff]
      refine ⟨div_nonneg h0 timestep_pos.le, ?_⟩
      exact (div_lt_one timestep_pos).mpr h1
    simp [runUpdates, hfl0]
  | cons d ds ih =>
    intro st h0 h1 hd
    have hd0 : 0 ≤ d := hd d (by simp)
    have hds : ∀ x ∈ ds, 0 ≤ x := fun x hx => hd x (by simp [hx])
    have hS : 0 ≤ ds.sum := List.sum_nonneg hds
    have hx0 : 0 ≤ st.accumulator + d := by linarith
    have hstep := update_eq_iterate d st world hx0
    have hrun : runUpdates (d :: ds) st world
        = runUpdates ds (update d st world) world := by
      simp [runUpdates]
    rw [hrun, hstep,
      ih ⟨(physicsStep world)^[(⌊(st.accumulator + d) / timestep⌋).toNat]
            st.player,
          st.accumulator + d
            - timestep * ⌊(st.accumulator + d) / timestep⌋⟩
        (fract_lower _) (fract_upper _) hds]
    have harg : (st.accumulator + d - timestep * ⌊(st.accumulator + d) / timestep⌋
          + ds.sum) / timestep
        = (st.accumulator + (d + ds.sum)) / timestep
          - (⌊(st.accumulator + d) / timestep⌋ : ℤ) := by
      have hts := timestep_pos
      field_simp
      ring
    have hfloor : ⌊(st.accumulator + d
          - timestep * ⌊(st.accumulator + d) / timestep⌋ + ds.sum) / timestep⌋
        = ⌊(st.accumulator + (d + ds.sum)) / timestep⌋
          - ⌊(st.accumulator + d) / timestep⌋ := by
      rw [harg, Int.floor_sub_int]
    have hnn1 : 0 ≤ ⌊(st.accumulator + d) / timestep⌋ :=
      Int.floor_nonneg.mpr (div_nonneg hx0 timestep_pos.le)
    have hnn2 : 0 ≤ ⌊(st.accumulator + d
        - timestep * ⌊(st.accumulator + d) / timestep⌋ + ds.sum) / timestep⌋ :=
      Int.floor_nonneg.mpr
        (div_nonneg (by have := fract_lower (st.accumulator + d); linarith)
          timestep_pos.le)
    simp only [PhysState.mk.injEq]
    constructor
    · rw [← Function.iterate_add_apply]
      congr 1
      rw [List.sum_cons]
      omega
    · rw [hfloor, List.sum_cons]
      push_cast
      ring

/-- C6: for every call to `update dt` with `dt ≥ 0` and accumulator initially
in `[0, timestep)`, the call executes exactly `⌊(accumulator + dt) / timestep⌋`
fixed simulation steps (the per-step function iterated that many times on the
player) and returns with the accumulator again in `[0, timestep)` (namely
`accumulator + dt - timestep * ⌊(accumulator + dt) / timestep⌋`). -/
theorem update_accumulator_invariant (dt : ℝ) (st : PhysState) (world : World)
    (hdt : 0 ≤ dt) (h0 : 0 ≤ st.accumulator) (h1 : st.accumulator < timestep) :
    update dt st world
        = ⟨(physicsStep world)^[(⌊(st.accumulator + dt) / timestep⌋).toNat]
             st.player,
           st.accumulator + dt - timestep * ⌊(st.accumulator + dt) / timestep⌋⟩
      ∧ 0 ≤ (update dt st world).accumulator
      ∧ (update dt st world).accumulator < timestep := by
  have he := update_eq_iterate dt st world (by linarith)
  refine ⟨he, ?_, ?_⟩
  · rw [he]
    exact fract_lower _
  · rw [he]
    exact fract_upper _

/-- Witness for C6 at `dt = 1/100` from a zero accumulator. -/
theorem update_accumulator_invariant_witness :
    (0 : ℝ) ≤ 1 / 100 ∧ (0 : ℝ) ≤ (0 : ℝ) ∧ (0 : ℝ) < timestep ∧
      (update (1 / 100) ⟨degPlayer, 0⟩ scenarioWorld
          = ⟨(physicsStep scenarioWorld)^[(⌊((0 : ℝ) + 1 / 100) / timestep⌋).toNat]
               degPlayer,
             (0 : ℝ) + 1 / 100 - timestep * ⌊((0 : ℝ) + 1 / 100) / timestep⌋⟩
        ∧ 0 ≤ (update (1 / 100) ⟨degPlayer, 0⟩ scenarioWorld).accumulator
        ∧ (update (1 / 100) ⟨degPlayer, 0⟩ scenarioWorld).accumulator
            < timestep) :=
  ⟨by norm_num, le_refl 0, timestep_pos,
    update_accumulator_invariant (1 / 100) ⟨degPlayer, 0⟩ scenarioWorld
      (by norm_num) (le_refl 0) timestep_pos⟩

/-- C10: an `update dt` call with `dt ≥ 0` whose incoming accumulator plus
`dt` stays below `timestep` runs zero fixed steps: the player (position and
velocity) is returned unchanged and the accumulator grows by exactly `dt`
(the grid is read-only by construction: `update` never writes it). -/
theorem update_below_timestep_noop (dt : ℝ) (st : PhysState) (world : World)
    (hdt : 0 ≤ dt) (h : st.accumulator + dt < timestep) :
    update dt st world = ⟨st.player, st.accumulator + dt⟩ := by
  unfold update
  rw [updateLoop, dif_neg (not_le.mpr h)]

/-- Witness for C10 at `dt = 1/1000` from a zero accumulator. -/
theorem update_below_timestep_noop_witness :
    (0 : ℝ) ≤ 1 / 1000 ∧ (0 : ℝ) + 1 / 1000 < timestep ∧
      update (1 / 1000) ⟨degPlayer, 0⟩ scenarioWorld
        = ⟨degPlayer, (0 : ℝ) + 1 / 1000⟩ :=
  ⟨by norm_num, by norm_num [timestep, simulationRate],
    update_below_timestep_noop (1 / 1000) ⟨degPlayer, 0⟩ scenarioWorld
      (by norm_num) (by norm_num [timestep, simulationRate])⟩

/-- C3: for a fixed grid and fixed initial state (accumulator in
`[0, timestep)`), any two sequences of non-negative real-time deltas with the
same total drive the integrator to the same final state: all physics math
uses the constant `timestep`, so each run executes
`⌊(accumulator + T) / timestep⌋` identical fixed steps. -/
theorem update_rate_independence (world : World) (st : PhysState)
    (l₁ l₂ : List ℝ) (h0 : 0 ≤ st.accumulator) (h1 : st.accumulator < timestep)
    (hl₁ : ∀ d ∈ l₁, 0 ≤ d) (hl₂ : ∀ d ∈ l₂, 0 ≤ d)
    (hsum : l₁.sum = l₂.sum) :
    runUpdates l₁ st world = runUpdates l₂ st world := by
  rw [runUpdates_eq world l₁ st h0 h1 hl₁, runUpdates_eq world l₂ st h0 h1 hl₂,
    hsum]

/-- Witness for C3: one frame of `1/250` versus two frames of `1/500`. -/
theorem update_rate_independence_witness :
    (0 : ℝ) ≤ (0 : ℝ) ∧ (0 : ℝ) < timestep
      ∧ (∀ d ∈ [(1 : ℝ) / 250], 0 ≤ d)
      ∧ (∀ d ∈ [(1 : ℝ) / 500, 1 / 500], 0 ≤ d)
      ∧ ([(1 : ℝ) / 250].sum = [(1 : ℝ) / 500, 1 / 500].sum)
      ∧ runUpdates [(1 : ℝ) / 250] ⟨degPlayer, 0⟩ scenarioWorld
          = runUpdates [(1 : ℝ) / 500, 1 / 500] ⟨degPlayer, 0⟩ scenarioWorld := by
  have hl₁ : ∀ d ∈ [(1 : ℝ) / 250], 0 ≤ d := by
    intro d hd
    simp only [List.mem_singleton] at hd
    rw [hd]
    norm_num
  have hl₂ : ∀ d ∈ [(1 : ℝ) / 500, 1 / 500], 0 ≤ d := by
    intro d hd
    simp only [List.mem_cons, List.mem_singleton] at hd
    rcases hd with hd | hd | hd <;> first | (rw [hd]; norm_num) | cases hd
  have hsum : [(1 : ℝ) / 250].sum = [(1 : ℝ) / 500, 1 / 500].sum := by
    simp
    norm_num
  exact ⟨le_refl 0, timestep_pos, hl₁, hl₂, hsum,
    update_rate_independence scenarioWorld ⟨degPlayer, 0⟩ _ _ (le_refl 0)
      timestep_pos hl₁ hl₂ hsum⟩

/-! Narrow-phase structural lemmas. -/

lemma cellCollision_onGround (player : Player) (x : Bool) :
    cellCollision { player with onGround := x } = cellCollision player := rfl

lemma cellVertical_onGround (player : Player) (x : Bool) :
    cellVertical { player with onGround := x } = cellVertical player := rfl

lemma narrowStep_eq (recs : List BlockCollision) (player : Player)
    (block : Point3D) :
    narrowStep (recs, player) block
      = (recs ++ (cellCollision player block).toList,
         if cellVertical player block then { player with onGround := true }
         else player) := by
  simp only [narrowStep, cellCollision, cellVertical]
  split_ifs <;> first | rfl | (exfalso; tauto) | simp

lemma foldl_narrowStep (cands : List Point3D) :
    ∀ (recs : List BlockCollision) (player : Player),
      cands.foldl narrowStep (recs, player)
        = (recs ++ cands.filterMap (cellCollision player),
           if ∃ b ∈ cands, cellVertical player b
           then { player with onGround := true } else player) := by
  induction cands with
  | nil =>
    intro recs player
    simp
  | cons b bs ih =>
    intro recs player
    rw [List.foldl_cons, narrowStep_eq]
    by_cases hv : cellVertical player b
    · rw [if_pos hv, ih]
      simp only [cellCollision_onGround, cellVertical_onGround]
      have hcons : (∃ b' ∈ b :: bs, cellVertical player b') := ⟨b, by simp, hv⟩
      rw [if_pos hcons]
      simp only [Prod.mk.injEq]
      refine ⟨?_, ?_⟩
      · cases hcc : cellCollision player b <;>
          simp [List.filterMap_cons, hcc]
      · split <;> rfl
    · rw [if_neg hv, ih]
      simp only [Prod.mk.injEq]
      refine ⟨?_, ?_⟩
      · cases hcc : cellCollision player b <;>
          simp [List.filterMap_cons, hcc]
      · simp only [List.mem_cons, exists_eq_or_imp, hv, false_or]

lemma narrowPhase_eq (cands : List Point3D) (player : Player) :
    narrowPhase cands player
      = (cands.filterMap (cellCollision player),
         if ∃ b ∈ cands, cellVertical player b
         then { player with onGround := true } else player) := by
  unfold narrowPhase
  simpa using foldl_narrowStep cands [] player

lemma resolveOne_onGround (q : Player) (c : BlockCollision) :
    (resolveOne q c).onGround = q.onGround := rfl

lemma foldl_resolveOne_onGround (l : List BlockCollision) :
    ∀ q : Player, (l.foldl resolveOne q).onGround = q.onGround := by
  induction l with
  | nil => intro q; rfl
  | cons c cs ih =>
    intro q
    rw [List.foldl_cons, ih, resolveOne_onGround]

lemma resolveCollisions_onGround (cols : List BlockCollision) (q : Player) :
    (resolveCollisions cols q).onGround = q.onGround :=
  foldl_resolveOne_onGround _ q

/-- C1: the narrow phase emits a record for a candidate cell exactly when the
closest point on the cell's unit cube (center convention, clamped per axis
against the horizontal position in X, Z and the vertical center
`position.y - height/2` in Y) satisfies `|dy| < height/2` and
`dx² + dz² < radius²`; the emitted record carries
`overlapY = height/2 - |dy|` with normal `(0, -sign dy, 0)` when
`overlapY < overlapXZ`, else `overlapXZ = radius - √(dx² + dz²)` with the
normalized `(-dx, 0, -dz)` as normal, and the closest point as contact. -/
theorem narrowPhase_emission (cands : List Point3D) (p : Player)
    (hr : 0 < p.radius) (hh : 0 < p.height) :
    (narrowPhase cands p).1
      = cands.filterMap (fun block =>
          let cpx := max ((block.x : ℝ) - 0.5)
            (min p.position.x ((block.x : ℝ) + 0.5))
          let cpy := max ((block.y : ℝ) - 0.5)
            (min (p.position.y - p.height / 2) ((block.y : ℝ) + 0.5))
          let cpz := max ((block.z : ℝ) - 0.5)
            (min p.position.z ((block.z : ℝ) + 0.5))
          let dx := cpx - p.position.x
          let dy := cpy - (p.position.y - p.height / 2)
          let dz := cpz - p.position.z
          if |dy| < p.height / 2 ∧ dx * dx + dz * dz < p.radius * p.radius then
            some { block := block
                   contactPoint := ⟨cpx, cpy, cpz⟩
                   normal :=
                     if p.height / 2 - |dy|
                         < p.radius - Real.sqrt (dx * dx + dz * dz) then
                       ⟨0, -Real.sign dy, 0⟩
                     else Vec3.normalize ⟨-dx, 0, -dz⟩
                   overlap :=
                     if p.height / 2 - |dy|
                         < p.radius - Real.sqrt (dx * dx + dz * dz) then
                       p.height / 2 - |dy|
                     else p.radius - Real.sqrt (dx * dx + dz * dz) }
          else none) := by
  rw [narrowPhase_eq]
  have hfun : ∀ block : Point3D, cellCollision p block
      = (fun block : Point3D =>
          let cpx := max ((block.x : ℝ) - 0.5)
            (min p.position.x ((block.x : ℝ) + 0.5))
          let cpy := max ((block.y : ℝ) - 0.5)
            (min (p.position.y - p.height / 2) ((block.y : ℝ) + 0.5))
          let cpz := max ((block.z : ℝ) - 0.5)
            (min p.position.z ((block.z : ℝ) + 0.5))
          let dx := cpx - p.position.x
          let dy := cpy - (p.position.y - p.height / 2)
          let dz := cpz - p.position.z
          if |dy| < p.height / 2 ∧ dx * dx + dz * dz < p.radius * p.radius then
            some { block := block
                   contactPoint := ⟨cpx, cpy, cpz⟩
                   normal :=
                     if p.height / 2 - |dy|
                         < p.radius - Real.sqrt (dx * dx + dz * dz) then
                       ⟨0, -Real.sign dy, 0⟩
                     else Vec3.normalize ⟨-dx, 0, -dz⟩
                   overlap :=
                     if p.height / 2 - |dy|
                         < p.radius - Real.sqrt (dx * dx + dz * dz) then
                       p.height / 2 - |dy|
                     else p.radius - Real.sqrt (dx * dx + dz * dz) }
          else none) block := by
    intro block
    simp only [cellCollision, closestPoint, pointInPlayerBoundingCylinder]
    split_ifs <;> first | rfl | (exfalso; tauto)
  dsimp only
  congr 1
  funext block
  exact hfun block

/-- Witness for C1 at a concrete candidate and actor. -/
theorem narrowPhase_emission_witness :
    (0 : ℝ) < degPlayer.radius ∧ (0 : ℝ) < degPlayer.height ∧
      (narrowPhase [degBlock] degPlayer).1
        = [degBlock].filterMap (fun block =>
            let cpx := max ((block.x : ℝ) - 0.5)
              (min degPlayer.position.x ((block.x : ℝ) + 0.5))
            let cpy := max ((block.y : ℝ) - 0.5)
              (min (degPlayer.position.y - degPlayer.height / 2)
                ((block.y : ℝ) + 0.5))
            let cpz := max ((block.z : ℝ) - 0.5)
              (min degPlayer.position.z ((block.z : ℝ) + 0.5))
            let dx := cpx - degPlayer.position.x
            let dy := cpy - (degPlayer.position.y - degPlayer.height / 2)
            let dz := cpz - degPlayer.position.z
            if |dy| < degPlayer.height / 2
                ∧ dx * dx + dz * dz < degPlayer.radius * degPlayer.radius then
              some { block := block
                     contactPoint := ⟨cpx, cpy, cpz⟩
                     normal :=
                       if degPlayer.height / 2 - |dy|
                           < degPlayer.radius
                             - Real.sqrt (dx * dx + dz * dz) then
                         ⟨0, -Real.sign dy, 0⟩
                       else Vec3.normalize ⟨-dx, 0, -dz⟩
                     overlap :=
                       if degPlayer.height / 2 - |dy|
                           < degPlayer.radius
                             - Real.sqrt (dx * dx + dz * dz) then
                         degPlayer.height / 2 - |dy|
                       else degPlayer.radius
                         - Real.sqrt (dx * dx + dz * dz) }
            else none) :=
  ⟨by norm_num [degPlayer], by norm_num [degPlayer],
    narrowPhase_emission [degBlock] degPlayer (by norm_num [degPlayer])
      (by norm_num [degPlayer])⟩

/-- C7: every collision record emitted by the narrow phase (for an actor with
positive radius, the spec's standing shape invariant) has strictly positive
overlap: containment gives `|dy| < height/2` and `dx² + dz² < radius²`, so
both candidate overlaps are positive, whichever axis is selected. -/
theorem narrowPhase_overlap_pos (cands : List Point3D) (p : Player)
    (hr : 0 < p.radius) (rec : BlockCollision)
    (hmem : rec ∈ (narrowPhase cands p).1) : 0 < rec.overlap := by
  rw [narrowPhase_eq] at hmem
  simp only [List.mem_filterMap] at hmem
  obtain ⟨b, _, hcc⟩ := hmem
  simp only [cellCollision] at hcc
  split at hcc
  case isTrue hc =>
    rw [Option.some.injEq] at hcc
    subst hcc
    obtain ⟨hcy, hcxz⟩ := hc
    split
    case isTrue hv =>
      simp only
      linarith
    case isFalse hv =>
      simp only
      have hlt : Real.sqrt
          (((closestPoint p b).x - p.position.x)
              * ((closestPoint p b).x - p.position.x)
            + ((closestPoint p b).z - p.position.z)
              * ((closestPoint p b).z - p.position.z)) < p.radius := by
        rw [Real.sqrt_lt' hr]
        nlinarith [hcxz]
      linarith
  case isFalse hc =>
    cases hcc

/-- Witness for C7: the record emitted for `degBlock` against `degPlayer`. -/
theorem narrowPhase_overlap_pos_witness :
    (0 : ℝ) < degPlayer.radius ∧
      ∃ rec ∈ (narrowPhase [degBlock] degPlayer).1, 0 < rec.overlap := by
  have hr : (0 : ℝ) < degPlayer.radius := by norm_num [degPlayer]
  have hne : (narrowPhase [degBlock] degPlayer).1 ≠ [] := by
    rw [narrowPhase_eq]
    simp only [List.filterMap_cons, List.filterMap_nil, cellCollision,
      closestPoint, pointInPlayerBoundingCylinder, degPlayer, degBlock]
    norm_num
  obtain ⟨rec, hrec⟩ := List.exists_mem_of_ne_nil _ hne
  exact ⟨hr, rec, hrec, narrowPhase_overlap_pos [degBlock] degPlayer hr rec hrec⟩

/-- C8: the detection pass first resets the grounded flag (its result never
depends on the incoming flag), and after the pass the flag is `true` exactly
when some emitted record selected the vertical axis
(`overlapY < overlapXZ`, predicate `cellVertical`); broad phase, horizontal
records and the resolver never set it. -/
theorem detectCollisions_grounded (p : Player) (w : World) :
    detectCollisions p w = detectCollisions { p with onGround := false } w
      ∧ ((detectCollisions p w).onGround = true
          ↔ ∃ b ∈ broadPhase p w, cellVertical p b) := by
  constructor
  · rfl
  · have hbp : broadPhase { p with onGround := false } w = broadPhase p w := rfl
    unfold detectCollisions
    simp only [narrowPhase_eq, hbp, cellVertical_onGround,
      cellCollision_onGround]
    by_cases hv : ∃ b ∈ broadPhase p w, cellVertical p b
    · rw [if_pos hv]
      obtain ⟨b, hb, hvb⟩ := hv
      have hsome : (cellCollision p b).isSome := by
        simp only [cellCollision]
        rw [if_pos hvb.1]
        rfl
      obtain ⟨rec, hrec⟩ := Option.isSome_iff_exists.mp hsome
      have hmem : rec ∈ (broadPhase p w).filterMap (cellCollision p) :=
        List.mem_filterMap.mpr ⟨b, hb, hrec⟩
      have hlen : 0 < ((broadPhase p w).filterMap (cellCollision p)).length :=
        List.length_pos.mpr (List.ne_nil_of_mem hmem)
      rw [if_pos hlen]
      unfold resolveCollisions
      rw [foldl_resolveOne_onGround]
      exact iff_of_true rfl ⟨b, hb, hvb⟩
    · rw [if_neg hv]
      split
      · unfold resolveCollisions
        rw [foldl_resolveOne_onGround]
        simp [hv]
      · simp [hv]

/-- C2: the resolver processes the records in ascending order of overlap with
a stable tie-break (any overlap-sorted sublist of the input stays a sublist
of the processing order), and each step first translates the position by
`normal * overlap` and then subtracts from the world velocity its projection
on the record's normal, leaving tangential components unchanged. -/
theorem resolveCollisions_ordered (cols : List BlockCollision) (p : Player) :
    ∃ l' : List BlockCollision,
      l'.Perm cols
      ∧ l'.Pairwise (fun a b => a.overlap ≤ b.overlap)
      ∧ (∀ c : List BlockCollision,
          c.Pairwise (fun a b => a.overlap ≤ b.overlap) → c.Sublist cols →
            c.Sublist l')
      ∧ resolveCollisions cols p
          = l'.foldl
              (fun q c =>
                let m := q.velocity.x * c.normal.x + q.velocity.y * c.normal.y
                  + q.velocity.z * c.normal.z
                { q with
                  position := ⟨q.position.x + c.normal.x * c.overlap,
                               q.position.y + c.normal.y * c.overlap,
                               q.position.z + c.normal.z * c.overlap⟩,
                  velocity := ⟨q.velocity.x - c.normal.x * m,
                               q.velocity.y - c.normal.y * m,
                               q.velocity.z - c.normal.z * m⟩ })
              p := by
  have htrans : ∀ a b c : BlockCollision,
      decide (a.overlap ≤ b.overlap) → decide (b.overlap ≤ c.overlap) →
        decide (a.overlap ≤ c.overlap) := by
    intro a b c hab hbc
    simp only [decide_eq_true_eq] at *
    exact le_trans hab hbc
  have htotal : ∀ a b : BlockCollision,
      decide (a.overlap ≤ b.overlap) || decide (b.overlap ≤ a.overlap) := by
    intro a b
    simpa [Bool.or_eq_true, decide_eq_true_eq] using le_total a.overlap b.overlap
  refine ⟨sortCollisions cols, List.mergeSort_perm cols _, ?_, ?_, ?_⟩
  · exact (List.sorted_mergeSort htrans htotal cols).imp
      fun h => of_decide_eq_true h
  · intro c hc hsub
    exact List.sublist_mergeSort htrans htotal
      (hc.imp fun h => decide_eq_true h) hsub
  · unfold resolveCollisions
    have hstep : resolveOne = fun (q : Player) (c : BlockCollision) =>
        let m := q.velocity.x * c.normal.x + q.velocity.y * c.normal.y
          + q.velocity.z * c.normal.z
        { q with
          position := ⟨q.position.x + c.normal.x * c.overlap,
                       q.position.y + c.normal.y * c.overlap,
                       q.position.z + c.normal.z * c.overlap⟩,
          velocity := ⟨q.velocity.x - c.normal.x * m,
                       q.velocity.y - c.normal.y * m,
                       q.velocity.z - c.normal.z * m⟩ } := by
      funext q c
      simp only [resolveOne, Player.worldVelocity, Player.applyWorldDeltaVelocity,
        Vec3.add, Vec3.multiplyScalar, Vec3.dot, Vec3.negate]
      ext <;> simp <;> ring
    rw [hstep]

/-! Broad-phase lemmas. -/

lemma mem_intRange (lo hi a : ℤ) : a ∈ intRange lo hi ↔ lo ≤ a ∧ a ≤ hi := by
  unfold intRange
  constructor
  · intro h
    obtain ⟨i, hi', hEq⟩ := List.mem_map.mp h
    rw [List.mem_range] at hi'
    omega
  · intro h
    exact List.mem_map.mpr
      ⟨(a - lo).toNat, List.mem_range.mpr (by omega), by omega⟩

lemma candidate_eq_some (w : World) (x y z : ℤ) (b : Point3D) :
    (match w.getBlock x y z with
      | some block =>
          if block.id ≠ blocksEmptyId then some (⟨x, y, z⟩ : Point3D) else none
      | none => none) = some b
      ↔ w.inBounds x y z ∧ (w.data x y z).id ≠ blocksEmptyId
          ∧ b = ⟨x, y, z⟩ := by
  by_cases hin : w.inBounds x y z
  · simp only [World.getBlock, if_pos hin]
    by_cases hid : (w.data x y z).id ≠ blocksEmptyId
    · simp [hid, hin, eq_comm]
    · simp [hid, hin]
  · simp [World.getBlock, if_neg hin, hin]

/-- C4: `broadPhase` returns exactly the integer cells in the
floored/ceiled bounding extents (X and Z within `radius` of the horizontal
position, Y spanning `[position.y - height, position.y]`) that lie within
grid bounds and hold a non-empty block id; out-of-bounds cells are treated
as empty (`getBlock` returns `none`, never an error) and yield no
candidate. -/
theorem broadPhase_bounds (p : Player) (w : World)
    (hr : 0 < p.radius) (hh : 0 < p.height) (b : Point3D) :
    b ∈ broadPhase p w
      ↔ (⌊p.position.x - p.radius⌋ ≤ b.x ∧ b.x ≤ ⌈p.position.x + p.radius⌉
          ∧ ⌊p.position.y - p.height⌋ ≤ b.y ∧ b.y ≤ ⌈p.position.y⌉
          ∧ ⌊p.position.z - p.radius⌋ ≤ b.z ∧ b.z ≤ ⌈p.position.z + p.radius⌉
          ∧ w.inBounds b.x b.y b.z
          ∧ (w.data b.x b.y b.z).id ≠ blocksEmptyId) := by
  unfold broadPhase
  simp only [List.mem_flatMap, List.mem_filterMap, mem_intRange]
  constructor
  · rintro ⟨x, ⟨hx1, hx2⟩, y, ⟨hy1, hy2⟩, z, ⟨hz1, hz2⟩, hm⟩
    rw [candidate_eq_some] at hm
    obtain ⟨hin, hid, rfl⟩ := hm
    exact ⟨hx1, hx2, hy1, hy2, hz1, hz2, hin, hid⟩
  · rintro ⟨hx1, hx2, hy1, hy2, hz1, hz2, hin, hid⟩
    refine ⟨b.x, ⟨hx1, hx2⟩, b.y, ⟨hy1, hy2⟩, b.z, ⟨hz1, hz2⟩, ?_⟩
    rw [candidate_eq_some]
    exact ⟨hin, hid, by ext <;> rfl⟩

/-- Witness for C4: the scenario grid and actor, at the occupied cell. -/
theorem broadPhase_bounds_witness :
    (0 : ℝ) < (scenarioPlayer 2 0 false).radius
      ∧ (0 : ℝ) < (scenarioPlayer 2 0 false).height
      ∧ ((⟨0, 1, 0⟩ : Point3D) ∈ broadPhase (scenarioPlayer 2 0 false)
            scenarioWorld
          ↔ (⌊(scenarioPlayer 2 0 false).position.x
                - (scenarioPlayer 2 0 false).radius⌋ ≤ (0 : ℤ)
              ∧ (0 : ℤ) ≤ ⌈(scenarioPlayer 2 0 false).position.x
                + (scenarioPlayer 2 0 false).radius⌉
              ∧ ⌊(scenarioPlayer 2 0 false).position.y
                - (scenarioPlayer 2 0 false).height⌋ ≤ (1 : ℤ)
              ∧ (1 : ℤ) ≤ ⌈(scenarioPlayer 2 0 false).position.y⌉
              ∧ ⌊(scenarioPlayer 2 0 false).position.z
                - (scenarioPlayer 2 0 false).radius⌋ ≤ (0 : ℤ)
              ∧ (0 : ℤ) ≤ ⌈(scenarioPlayer 2 0 false).position.z
                + (scenarioPlayer 2 0 false).radius⌉
              ∧ scenarioWorld.inBounds 0 1 0
              ∧ (scenarioWorld.data 0 1 0).id ≠ blocksEmptyId)) :=
  ⟨by norm_num [scenarioPlayer], by norm_num [scenarioPlayer],
    broadPhase_bounds (scenarioPlayer 2 0 false) scenarioWorld
      (by norm_num [scenarioPlayer]) (by norm_num [scenarioPlayer]) ⟨0, 1, 0⟩⟩

/-! Degenerate-normal evaluations. -/

lemma normalize_zero : Vec3.normalize ⟨0, 0, 0⟩ = (⟨0, 0, 0⟩ : Vec3) := by
  unfold Vec3.normalize Vec3.divideScalar Vec3.multiplyScalar Vec3.length
  norm_num

lemma deg_closestPoint : closestPoint degPlayer degBlock = ⟨0, 0, 0⟩ := by
  simp only [closestPoint, degPlayer, degBlock]
  ext <;> norm_num

lemma deg_cellCollision :
    cellCollision degPlayer degBlock
      = some { block := degBlock, contactPoint := ⟨0, 0, 0⟩,
               normal := ⟨0, 0, 0⟩, overlap := 1 } := by
  simp only [cellCollision]
  rw [deg_closestPoint]
  simp only [degPlayer, degBlock]
  norm_num [pointInPlayerBoundingCylinder, normalize_zero,
    BlockCollision.mk.injEq, Vec3.mk.injEq]

/-- C5 (code-bug evidence): for the actor `degPlayer` (radius 1, height 4 at
`(0, 2, 0)`) and the candidate cell `(0, 0, 0)`, the cylinder axis passes
exactly through the cell center (`dx = dz = 0`), the horizontal branch is
selected, and the emitted record's normal is the zero vector
(`THREE.normalize` of the zero vector), which has length 0, not 1 — the
spec's unit-normal invariant is violated (though no NaN is produced). -/
theorem narrowPhase_degenerate_zero_normal :
    (narrowPhase [degBlock] degPlayer).1
        = [{ block := degBlock, contactPoint := ⟨0, 0, 0⟩,
             normal := ⟨0, 0, 0⟩, overlap := 1 }]
      ∧ (⟨(0 : ℝ), 0, 0⟩ : Vec3).length = 0
      ∧ (⟨(0 : ℝ), 0, 0⟩ : Vec3).length ≠ 1 := by
  refine ⟨?_, ?_, ?_⟩
  · rw [narrowPhase_eq]
    dsimp only
    simp [List.filterMap_cons, deg_cellCollision]
  · simp [Vec3.length]
  · simp [Vec3.length]

/-! Drop-scenario evaluations (C9). -/

lemma scen_closestPoint (w vy : ℝ) (h1 : 1.8 < w) (h2 : w ≤ 2) :
    closestPoint (scenarioPlayer w vy false) ⟨0, 1, 0⟩
      = ⟨0.5, w - 0.9, 0.5⟩ := by
  simp only [closestPoint, scenarioPlayer]
  ext
  · push_cast
    norm_num [min_def, max_def]
  · push_cast
    rw [min_eq_left (by linarith), max_eq_right (by linarith)]
    norm_num
  · push_cast
    norm_num [min_def, max_def]

lemma scen_cellCollision (w vy : ℝ) (h1 : 1.8 < w) (h2 : w ≤ 2) :
    cellCollision (scenarioPlayer w vy false) ⟨0, 1, 0⟩
      = some { block := ⟨0, 1, 0⟩, contactPoint := ⟨0.5, w - 0.9, 0.5⟩,
               normal := ⟨0, 0, 0⟩, overlap := 0.4 } := by
  simp only [cellCollision]
  rw [scen_closestPoint w vy h1 h2]
  simp only [scenarioPlayer]
  norm_num [pointInPlayerBoundingCylinder, normalize_zero,
    BlockCollision.mk.injEq, Vec3.mk.injEq,
    show ((w - 0.9) - (w - 1.8 / 2) : ℝ) = 0 by ring]

lemma scen_not_vertical (w vy : ℝ) (h1 : 1.8 < w) (h2 : w ≤ 2) :
    ¬ cellVertical (scenarioPlayer w vy false) ⟨0, 1, 0⟩ := by
  simp only [cellVertical]
  rw [scen_closestPoint w vy h1 h2]
  simp only [scenarioPlayer]
  norm_num [pointInPlayerBoundingCylinder,
    show ((w - 0.9) - (w - 1.8 / 2) : ℝ) = 0 by ring]

lemma scen_broadPhase (w vy : ℝ) (h1 : 1.8 < w) (h2 : w ≤ 2) :
    broadPhase (scenarioPlayer w vy false) scenarioWorld = [⟨0, 1, 0⟩] := by
  have hfy : ⌊w - 1.8⌋ = 0 := by
    rw [Int.floor_eq_zero_iff]
    exact Set.mem_Ico.mpr ⟨by linarith, by linarith⟩
  have hcy : ⌈w⌉ = 2 := by
    rw [Int.ceil_eq_iff]
    constructor
    · push_cast
      linarith
    · push_cast
      linarith
  unfold broadPhase
  simp only [scenarioPlayer]
  rw [hfy, hcy,
    show ⌊(0.5 : ℝ) - 0.4⌋ = 0 by
      rw [Int.floor_eq_zero_iff]
      exact Set.mem_Ico.mpr ⟨by norm_num, by norm_num⟩,
    show ⌈(0.5 : ℝ) + 0.4⌉ = 1 by
      rw [Int.ceil_eq_iff]
      constructor <;> norm_num]
  rfl

lemma scen_detect (w vy : ℝ) (og : Bool) (h1 : 1.8 < w) (h2 : w ≤ 2) :
    detectCollisions (scenarioPlayer w vy og) scenarioWorld
      = scenarioPlayer w vy false := by
  have hp0 : ({ scenarioPlayer w vy og with onGround := false } : Player)
      = scenarioPlayer w vy false := by
    simp only [scenarioPlayer]
  have hex : ¬ ∃ b ∈ [(⟨0, 1, 0⟩ : Point3D)],
      cellVertical (scenarioPlayer w vy false) b := by
    rintro ⟨b, hb, hvb⟩
    simp only [List.mem_singleton] at hb
    subst hb
    exact scen_not_vertical w vy h1 h2 hvb
  have hres : resolveCollisions
      [{ block := ⟨0, 1, 0⟩, contactPoint := ⟨0.5, w - 0.9, 0.5⟩,
         normal := ⟨0, 0, 0⟩, overlap := 0.4 }]
      (scenarioPlayer w vy false) = scenarioPlayer w vy false := by
    unfold resolveCollisions sortCollisions
    rw [List.mergeSort_singleton]
    simp only [List.foldl_cons, List.foldl_nil, resolveOne,
      Player.worldVelocity, Player.applyWorldDeltaVelocity, Vec3.add,
      Vec3.multiplyScalar, Vec3.dot, Vec3.negate, scenarioPlayer]
    simp only [Player.mk.injEq, Vec3.mk.injEq]
    norm_num
  simp only [detectCollisions]
  rw [hp0, scen_broadPhase w vy h1 h2, narrowPhase_eq]
  dsimp only
  rw [List.filterMap_cons]
  simp only [scen_cellCollision w vy h1 h2, List.filterMap_nil]
  rw [if_neg hex]
  rw [if_pos (by norm_num)]
  exact hres

/-- C9 (code-bug evidence): in the spec's drop scenario (actor radius 0.4,
height 1.8 above the single occupied voxel `(0,1,0)`, center convention),
for the whole window in which the post-move height lands in `(1.8, 2]` —
which contains the scenario start `y = 2` — a fixed step strictly lowers
`position.y`, leaves `grounded = false`, and applies no positional
correction: the emitted collision is horizontal with a zero normal, so the
actor never stabilizes at the claimed height. -/
theorem scenario_fall_through (y vy : ℝ) (og : Bool) (hv : vy ≤ 0)
    (h1 : 1.8 < y + (vy - gravity * timestep) * timestep)
    (h2 : y + (vy - gravity * timestep) * timestep ≤ 2) :
    physicsStep scenarioWorld (scenarioPlayer y vy og)
        = scenarioPlayer (y + (vy - gravity * timestep) * timestep)
            (vy - gravity * timestep) false
      ∧ y + (vy - gravity * timestep) * timestep < y
      ∧ (physicsStep scenarioWorld (scenarioPlayer y vy og)).onGround
          = false := by
  have hg : (0 : ℝ) < gravity * timestep := by
    norm_num [gravity, timestep, simulationRate]
  have hdesc : y + (vy - gravity * timestep) * timestep < y := by
    have hneg : vy - gravity * timestep < 0 := by linarith
    have := mul_neg_of_neg_of_pos hneg timestep_pos
    linarith
  have hinput : Player.applyInputs
      { scenarioPlayer y vy og with
        velocity := ⟨(scenarioPlayer y vy og).velocity.x,
                     (scenarioPlayer y vy og).velocity.y - gravity * timestep,
                     (scenarioPlayer y vy og).velocity.z⟩ } timestep
      = scenarioPlayer (y + (vy - gravity * timestep) * timestep)
          (vy - gravity * timestep) og := by
    simp only [Player.applyInputs, scenarioPlayer, if_true]
    simp only [Player.mk.injEq, Vec3.mk.injEq]
    norm_num
  have hmain : physicsStep scenarioWorld (scenarioPlayer y vy og)
      = scenarioPlayer (y + (vy - gravity * timestep) * timestep)
          (vy - gravity * timestep) false := by
    simp only [physicsStep]
    rw [hinput, scen_detect _ _ og h1 h2]
  refine ⟨hmain, hdesc, ?_⟩
  rw [hmain]
  rfl

/-- Witness for C9 at the scenario start `y = 2`, `vy = 0`. -/
theorem scenario_fall_through_witness :
    (0 : ℝ) ≤ 0
      ∧ 1.8 < 2 + ((0 : ℝ) - gravity * timestep) * timestep
      ∧ 2 + ((0 : ℝ) - gravity * timestep) * timestep ≤ 2
      ∧ (physicsStep scenarioWorld (scenarioPlayer 2 0 false)
            = scenarioPlayer (2 + ((0 : ℝ) - gravity * timestep) * timestep)
                ((0 : ℝ) - gravity * timestep) false
          ∧ 2 + ((0 : ℝ) - gravity * timestep) * timestep < 2
          ∧ (physicsStep scenarioWorld (scenarioPlayer 2 0 false)).onGround
              = false) :=
  ⟨le_refl 0, by norm_num [gravity, timestep, simulationRate],
    by norm_num [gravity, timestep, simulationRate],
    scenario_fall_through 2 0 false (le_refl 0)
      (by norm_num [gravity, timestep, simulationRate])
      (by norm_num [gravity, timestep, simulationRate])⟩

end VoxelPhysics
